import Mathlib

set_option maxHeartbeats 1000000

/- Shallow embedding of the static-initializer cycle-detection subsystem:
   src/compiler/rustc_const_eval/src/check_static_initializer_acyclic.rs,
   src/compiler/rustc_monomorphize/src/graph_checks/statics_check.rs and
   src/compiler/rustc_monomorphize/src/graph_checks/mod.rs.
   Machine identities (DefId, AllocId, spans) are modelled as naturals;
   external collaborators (constant evaluator, allocation registry, usage
   map, SCC decomposition service) are explicit inputs. -/

abbrev AllocId := Nat

abbrev LocalDefId := Nat

abbrev Span := Nat

/- DefId: either local to the current crate (as_local = Some) or foreign. -/
inductive DefId where
  | localDef (d : LocalDefId)
  | foreignDef (n : Nat)
deriving DecidableEq, Repr

instance : Inhabited DefId := ⟨DefId.foreignDef 0⟩

def DefId.asLocal : DefId → Option LocalDefId
  | DefId.localDef d => some d
  | DefId.foreignDef _ => none

/- An allocation: we keep only its provenance, i.e. the ordered list of
   AllocIds its pointer bytes reference (alloc.provenance().ptrs()). -/
structure Allocation where
  provenance : List AllocId
deriving DecidableEq, Repr

/- GlobalAlloc as matched by the early check: statics, constant memory,
   and the other kinds (functions, vtables) that fall into the wildcard. -/
inductive GlobalAlloc where
  | staticAlloc (d : DefId)
  | memory (a : Allocation)
  | functionAlloc (n : Nat)
  | vtableAlloc (n : Nat)
deriving DecidableEq, Repr

/- FxIndexSet: insertion-ordered deduplicating set, modelled as a list
   that keeps the first occurrence of each element. -/
def insertIdxSet [DecidableEq α] (l : List α) (a : α) : List α :=
  if a ∈ l then l else l ++ [a]

def extendIdxSet [DecidableEq α] (l : List α) (xs : List α) : List α :=
  xs.foldl insertIdxSet l

def collectIdxSet [DecidableEq α] (xs : List α) : List α :=
  extendIdxSet [] xs

/- FxIndexSet::get_index_of: position of an element in insertion order. -/
def getIndexOf [DecidableEq α] : List α → α → Option Nat
  | [], _ => none
  | x :: xs, a => if x = a then some 0 else (getIndexOf xs a).map (· + 1)

/- The HIR items visible to tcx.hir_free_items(), reduced to the one
   distinction the early check makes. -/
inductive HirItemKind where
  | staticItem (d : LocalDefId)
  | otherItem (n : Nat)
deriving DecidableEq, Repr

/- The slice of TyCtxt the early check consumes: the HIR item stream, the
   constant evaluator, the global allocation registry (a finite table, so
   that the universe of allocation identities is finite), and the span /
   path / target data used by diagnostics. -/
structure EarlyCtx where
  hirItems : List HirItemKind
  evalStaticInitializer : LocalDefId → Option Allocation
  globalAllocs : List (AllocId × GlobalAlloc)
  defSpan : LocalDefId → Span
  defPathStr : LocalDefId → String
  llvmTarget : String

/- tcx.try_get_global_alloc. -/
def lookupAlloc : List (AllocId × GlobalAlloc) → AllocId → Option GlobalAlloc
  | [], _ => none
  | p :: ps, a => if p.1 = a then some p.2 else lookupAlloc ps a

/- Candidate set of the early check: all local statics, collected into an
   FxIndexSet in HIR item order. -/
def collectStatics (items : List HirItemKind) : List LocalDefId :=
  collectIdxSet (items.filterMap fun it =>
    match it with
    | HirItemKind.staticItem d => some d
    | HirItemKind.otherItem _ => none)

/- The frontier loop of collect_referenced_local_statics: scan alloc_ids by
   ascending index; a static entry pushes its node handle (if local and a
   candidate), a memory entry extends the frontier with its provenance, any
   other entry is ignored.  The loop in the source has no fuel: it stops
   when the index passes the last element.  Here fuel is an upper bound on
   the number of iterations; collectLoop_stable shows any fuel of at least
   fuelBound gives the same result, which is the termination argument. -/
def pushIfCandidate : Option Nat → List Nat → List Nat
  | some node, acc => acc ++ [node]
  | none, acc => acc

def staticPush (statics : List LocalDefId) (defId : DefId) (acc : List Nat) : List Nat :=
  match defId.asLocal with
  | some localDef => pushIfCandidate (getIndexOf statics localDef) acc
  | none => acc

def collectLoop (lookup : AllocId → Option GlobalAlloc) (statics : List LocalDefId) :
    Nat → Nat → List AllocId → List Nat → List Nat × List AllocId
  | 0, _, ids, acc => (acc, ids)
  | fuel + 1, i, ids, acc =>
    match ids[i]? with
    | none => (acc, ids)
    | some allocId =>
      match lookup allocId with
      | some (GlobalAlloc.staticAlloc defId) =>
        collectLoop lookup statics fuel (i + 1) ids (staticPush statics defId acc)
      | some (GlobalAlloc.memory constAlloc) =>
        collectLoop lookup statics fuel (i + 1) (extendIdxSet ids constAlloc.provenance) acc
      | _ => collectLoop lookup statics fuel (i + 1) ids acc

/- Provenance contributed by one registry entry to the frontier universe. -/
def allocProvenance : GlobalAlloc → List AllocId
  | GlobalAlloc.memory m => m.provenance
  | _ => []

/- Every AllocId the frontier can ever contain: the root's provenance plus
   the provenance of every memory allocation in the registry. -/
def allocIdUniverse (ctx : EarlyCtx) (root : Allocation) : List AllocId :=
  collectIdxSet (root.provenance ++ (ctx.globalAllocs.map fun p => allocProvenance p.2).flatten)

def fuelBound (ctx : EarlyCtx) (root : Allocation) : Nat :=
  (allocIdUniverse ctx root).length + 1

def collect_referenced_local_statics (ctx : EarlyCtx) (root : Allocation)
    (statics : List LocalDefId) : List Nat :=
  (collectLoop (lookupAlloc ctx.globalAllocs) statics (fuelBound ctx root) 0
    (extendIdxSet [] root.provenance) []).1

/- The adjacency rows of the early StaticRefGraph: one row per candidate, a
   failed evaluation contributing an empty row. -/
def earlyGraphSucc (ctx : EarlyCtx) : List (List Nat) :=
  (collectStatics ctx.hirItems).map fun d =>
    match ctx.evalStaticInitializer d with
    | some rootAlloc => collect_referenced_local_statics ctx rootAlloc (collectStatics ctx.hirItems)
    | none => []

/- The SCC decomposition service (external, black box): a component id per
   node handle and the number of components. -/
structure Sccs where
  numSccs : Nat
  sccOf : Nat → Nat

/- Grouping of node handles by component, one ascending pass pushing each
   handle onto its component's member list. -/
def buildMembers (sccs : Sccs) (numNodes : Nat) : List (List Nat) :=
  (List.range numNodes).foldl
    (fun members i =>
      members.set (sccs.sccOf i) (members.getD (sccs.sccOf i) [] ++ [i]))
    (List.replicate sccs.numSccs [])

/- The classification of one component: empty is acyclic, a singleton is
   acyclic unless it has a self-edge, two or more members are cyclic. -/
def sccIsAcyclic (succOf : Nat → List Nat) : List Nat → Bool
  | [] => true
  | [x] => (succOf x).all fun y => y != x
  | _ :: _ :: _ => false

/- A diagnostic as handed to the sink: primary span, message, one label per
   span, and a note. -/
structure Diag where
  primarySpan : Span
  message : String
  labels : List (Span × String)
  note : String
deriving DecidableEq, Repr

/- The struct_span_err / span_labels / note sequence shared verbatim by the
   two checks (with LocalDefId resp. DefId as the identity type). -/
def mkCycleDiag [Inhabited α] (spanOf : α → Span) (pathOf : α → String)
    (target : String) (statics : List α) (nodes : List Nat) : Diag :=
  { primarySpan := spanOf (statics.getD (nodes.getD 0 0) default)
    message := "static initializer forms a cycle involving `"
      ++ pathOf (statics.getD (nodes.getD 0 0) default) ++ "`"
    labels := nodes.map fun n => (spanOf (statics.getD n default), "part of this cycle")
    note := "cyclic static initializer references are not supported for target `"
      ++ target ++ "`" }

/- The early check's handling of one component: skip if acyclic, otherwise
   produce the diagnostic. -/
def earlySccDiag (ctx : EarlyCtx) (sccs : Sccs) (scc : Nat) : Option Diag :=
  let statics := collectStatics ctx.hirItems
  let nodes := (buildMembers sccs statics.length).getD scc []
  if sccIsAcyclic (fun n => (earlyGraphSucc ctx).getD n []) nodes then none
  else some (mkCycleDiag ctx.defSpan ctx.defPathStr ctx.llvmTarget statics nodes)

/- first_guar: Ok when no diagnostic was emitted, otherwise Err carrying the
   token of the first emitted diagnostic (first_guar.get_or_insert). -/
def firstGuar : List Diag → Except Diag Unit
  | [] => Except.ok ()
  | d :: _ => Except.error d

/- The early check: collect candidates, fast path on empty, build the graph,
   decompose, emit one diagnostic per cyclic component, return Ok unless a
   diagnostic was emitted.  Result: the emitted diagnostics in order, and
   the returned Result. -/
def check_static_initializer_acyclic (ctx : EarlyCtx) (sccs : Sccs) :
    List Diag × Except Diag Unit :=
  let statics := collectStatics ctx.hirItems
  if statics.isEmpty then ([], Except.ok ())
  else
    let diags := (List.range sccs.numSccs).filterMap (earlySccDiag ctx sccs)
    (diags, firstGuar diags)

/- MonoItem, reduced to the distinction the late check makes. -/
inductive MonoItem where
  | staticItem (d : DefId)
  | fnItem (n : Nat)
  | globalAsmItem (n : Nat)
deriving DecidableEq, Repr

/- The slice of TyCtxt / UsageMap the late check consumes.  usedMap is the
   lookup into UsageMap.used_map; a missing key is the indexing panic. -/
structure LateCtx where
  monoItems : List MonoItem
  usedMap : MonoItem → Option (List MonoItem)
  defSpanD : DefId → Span
  defPathStrD : DefId → String
  llvmTarget : String

/- Candidate set of the late check: the statics of the monomorphized item
   universe, in an FxIndexSet. -/
def collectMonoStatics (items : List MonoItem) : List DefId :=
  collectIdxSet (items.filterMap fun it =>
    match it with
    | MonoItem.staticItem d => some d
    | _ => none)

/- StaticRefGraph::successors of the late check: look up the node's direct
   uses (None models the fatal indexing panic on a missing key) and keep the
   handles of the entries that are statics of the candidate set. -/
def lateSuccessors (statics : List DefId) (usedMap : MonoItem → Option (List MonoItem))
    (i : Nat) : Option (List Nat) :=
  (usedMap (MonoItem.staticItem (statics.getD i default))).map fun uses =>
    uses.filterMap fun m =>
      match m with
      | MonoItem.staticItem d => getIndexOf statics d
      | _ => none

/- Late classification of one component; none propagates the panic of a
   missing usage-map entry (only a singleton ever queries successors). -/
def lateSccIsAcyclic (statics : List DefId) (usedMap : MonoItem → Option (List MonoItem)) :
    List Nat → Option Bool
  | [] => some true
  | [x] => (lateSuccessors statics usedMap x).map (List.all · fun y => y != x)
  | _ :: _ :: _ => some false

/- The late check's diagnostic loop over the enumerated components. -/
def lateDiagLoop (ctx : LateCtx) (statics : List DefId) (members : List (List Nat)) :
    List Nat → Option (List Diag)
  | [] => some []
  | scc :: rest =>
    match lateSccIsAcyclic statics ctx.usedMap (members.getD scc []) with
    | none => none
    | some true => lateDiagLoop ctx statics members rest
    | some false =>
      (lateDiagLoop ctx statics members rest).map
        (mkCycleDiag ctx.defSpanD ctx.defPathStrD ctx.llvmTarget statics
          (members.getD scc []) :: ·)

/- The late check: collect candidates, fast path on empty, decompose, emit
   one diagnostic per cyclic component; the emitted tokens are discarded
   (let _ = diag.emit()), so only the diagnostics are returned.  none models
   the panic on a usage-map contract violation. -/
def check_static_initializers_are_acyclic (ctx : LateCtx) (sccs : Sccs) :
    Option (List Diag) :=
  let statics := collectMonoStatics ctx.monoItems
  if statics.isEmpty then some []
  else lateDiagLoop ctx statics (buildMembers sccs statics.length) (List.range sccs.numSccs)

/- Target configuration consumed by the gate. -/
structure TargetOptions where
  static_initializer_must_be_acyclic : Bool

/- do_target_specific_checks: run the late check iff the target flag is set. -/
def do_target_specific_checks (opts : TargetOptions) (ctx : LateCtx) (sccs : Sccs) :
    Option (List Diag) :=
  if opts.static_initializer_must_be_acyclic then
    check_static_initializers_are_acyclic ctx sccs
  else some []

/- check_mono_item_graph forwards to do_target_specific_checks. -/
def check_mono_item_graph (opts : TargetOptions) (ctx : LateCtx) (sccs : Sccs) :
    Option (List Diag) :=
  do_target_specific_checks opts ctx sccs

/-- Modelled from the spec: the cross-phase orchestrator (§4.6) is not part
of src/ (the early check's caller and the session plumbing live elsewhere in
the compiler); per the spec it always runs the early check, runs the late
check only when the target requires acyclic statics, and aggregates a single
result that is success unless at least one diagnostic was emitted by either
run, the failure carrying the first emitted diagnostic's token. -/
def orchestrate (ectx : EarlyCtx) (esccs : Sccs) (opts : TargetOptions)
    (lctx : LateCtx) (lsccs : Sccs) : List Diag × Except Diag Unit :=
  let earlyDiags := (check_static_initializer_acyclic ectx esccs).1
  let lateDiags := (do_target_specific_checks opts lctx lsccs).getD []
  let allDiags := earlyDiags ++ lateDiags
  (allDiags, firstGuar allDiags)

/- What it means for one frontier entry to have been handled: a memory
   entry's provenance is in the frontier, a candidate-static entry's handle
   is among the recorded edges. -/
def entryProcessed (lookup : AllocId → Option GlobalAlloc) (statics : List LocalDefId)
    (ids : List AllocId) (acc : List Nat) (a : AllocId) : Prop :=
  (∀ m, lookup a = some (GlobalAlloc.memory m) → ∀ b ∈ m.provenance, b ∈ ids) ∧
  (∀ d s k, lookup a = some (GlobalAlloc.staticAlloc d) → d.asLocal = some s →
    getIndexOf statics s = some k → k ∈ acc)

/- ===== Concrete instances used to exercise the checks ===== -/

/- One local static (5) whose initializer points to an anonymous memory blob
   (20) that points back to the static through entry 21. -/
def blobCycleCtx : EarlyCtx :=
  { hirItems := [HirItemKind.staticItem 5]
    evalStaticInitializer := fun d => if d = 5 then some { provenance := [20] } else none
    globalAllocs := [(20, GlobalAlloc.memory { provenance := [21, 20] }),
                     (21, GlobalAlloc.staticAlloc (DefId.localDef 5))]
    defSpan := fun d => 100 + d
    defPathStr := fun _ => "CYCLIC"
    llvmTarget := "nvptx64-nvidia-cuda" }

/- One local static (7) whose initializer points only to a static of another
   crate; the foreign static's memory is invisible to the traversal even if
   it refers back to 7. -/
def foreignRefCtx : EarlyCtx :=
  { hirItems := [HirItemKind.staticItem 7]
    evalStaticInitializer := fun d => if d = 7 then some { provenance := [30] } else none
    globalAllocs := [(30, GlobalAlloc.staticAlloc (DefId.foreignDef 4))]
    defSpan := fun d => 200 + d
    defPathStr := fun _ => "VIA_FOREIGN"
    llvmTarget := "nvptx64-nvidia-cuda" }

/- One local static (9) whose constant evaluation fails. -/
def evalFailCtx : EarlyCtx :=
  { hirItems := [HirItemKind.staticItem 9]
    evalStaticInitializer := fun _ => none
    globalAllocs := []
    defSpan := fun d => 300 + d
    defPathStr := fun _ => "FAILS"
    llvmTarget := "nvptx64-nvidia-cuda" }

/- The same crate with the failure replaced by an empty allocation. -/
def evalEmptyCtx : EarlyCtx :=
  { hirItems := [HirItemKind.staticItem 9]
    evalStaticInitializer := fun d => if d = 9 then some { provenance := [] } else none
    globalAllocs := []
    defSpan := fun d => 300 + d
    defPathStr := fun _ => "FAILS"
    llvmTarget := "nvptx64-nvidia-cuda" }

/- Monomorphized universe with two statics that use each other; the second
   one's use list carries a duplicate entry. -/
def mutualLateCtx : LateCtx :=
  { monoItems := [MonoItem.staticItem (DefId.localDef 0), MonoItem.fnItem 3,
                  MonoItem.staticItem (DefId.localDef 1)]
    usedMap := fun m =>
      match m with
      | MonoItem.staticItem (DefId.localDef 0) =>
        some [MonoItem.staticItem (DefId.localDef 1), MonoItem.fnItem 3]
      | MonoItem.staticItem (DefId.localDef 1) =>
        some [MonoItem.staticItem (DefId.localDef 0), MonoItem.staticItem (DefId.localDef 0)]
      | _ => none
    defSpanD := fun d =>
      match d with
      | DefId.localDef n => 400 + n
      | DefId.foreignDef n => 500 + n
    defPathStrD := fun _ => "LATE"
    llvmTarget := "nvptx64-nvidia-cuda" }

/- A usage map with no entries at all: every lookup is the fatal panic. -/
def emptyUsedMap : MonoItem → Option (List MonoItem) := fun _ => none

/- The decomposition result assigning every node to component 0. -/
def oneScc : Sccs := { numSccs := 1, sccOf := fun _ => 0 }

/- ===== Lemmas about the insertion-ordered set model ===== -/

theorem mem_insertIdxSet [DecidableEq α] (l : List α) (a b : α) :
    b ∈ insertIdxSet l a ↔ b ∈ l ∨ b = a := by
  unfold insertIdxSet
  by_cases h : a ∈ l
  · simp only [if_pos h]
    constructor
    · exact Or.inl
    · rintro (hb | rfl)
      · exact hb
      · exact h
  · simp [if_neg h]

theorem nodup_insertIdxSet [DecidableEq α] (l : List α) (a : α) (h : l.Nodup) :
    (insertIdxSet l a).Nodup := by
  unfold insertIdxSet
  by_cases ha : a ∈ l
  · simpa [if_pos ha]
  · simp only [if_neg ha]
    simpa [List.nodup_append] using ⟨h, fun hx => ha hx⟩

theorem insertIdxSet_suffix [DecidableEq α] (l : List α) (a : α) :
    ∃ t, insertIdxSet l a = l ++ t ∧ ∀ b ∈ t, b = a ∧ ¬b ∈ l := by
  unfold insertIdxSet
  by_cases ha : a ∈ l
  · exact ⟨[], by simp [if_pos ha]⟩
  · refine ⟨[a], by simp [if_neg ha], ?_⟩
    rintro b hb
    simp only [List.mem_singleton] at hb
    exact ⟨hb, hb ▸ ha⟩

theorem extendIdxSet_suffix [DecidableEq α] (xs l : List α) :
    ∃ t, extendIdxSet l xs = l ++ t ∧ ∀ b ∈ t, b ∈ xs ∧ ¬b ∈ l := by
  induction xs generalizing l with
  | nil => exact ⟨[], by simp [extendIdxSet], by simp⟩
  | cons x xs ih =>
    obtain ⟨t1, ht1, ht1mem⟩ := insertIdxSet_suffix l x
    obtain ⟨t2, ht2, ht2mem⟩ := ih (insertIdxSet l x)
    refine ⟨t1 ++ t2, ?_, ?_⟩
    · show extendIdxSet (insertIdxSet l x) xs = l ++ (t1 ++ t2)
      rw [ht2, ht1, List.append_assoc]
    · intro b hb
      rcases List.mem_append.mp hb with hb1 | hb2
      · obtain ⟨rfl, hnl⟩ := ht1mem b hb1
        exact ⟨List.mem_cons_self _ _, hnl⟩
      · obtain ⟨hxs, hnil⟩ := ht2mem b hb2
        refine ⟨List.mem_cons_of_mem _ hxs, fun hbl => hnil ?_⟩
        rw [ht1]
        exact List.mem_append_left _ hbl

theorem mem_extendIdxSet [DecidableEq α] (xs l : List α) (b : α) :
    b ∈ extendIdxSet l xs ↔ b ∈ l ∨ b ∈ xs := by
  induction xs generalizing l with
  | nil => simp [extendIdxSet]
  | cons x xs ih =>
    show b ∈ extendIdxSet (insertIdxSet l x) xs ↔ _
    rw [ih, mem_insertIdxSet]
    constructor
    · rintro ((hl | rfl) | hxs)
      · exact Or.inl hl
      · exact Or.inr (List.mem_cons_self _ _)
      · exact Or.inr (List.mem_cons_of_mem _ hxs)
    · rintro (hl | hx)
      · exact Or.inl (Or.inl hl)
      · rcases List.mem_cons.mp hx with rfl | hxs
        · exact Or.inl (Or.inr rfl)
        · exact Or.inr hxs

theorem nodup_extendIdxSet [DecidableEq α] (xs l : List α) (h : l.Nodup) :
    (extendIdxSet l xs).Nodup := by
  induction xs generalizing l with
  | nil => exact h
  | cons x xs ih => exact ih _ (nodup_insertIdxSet l x h)

theorem nodup_collectIdxSet [DecidableEq α] (xs : List α) : (collectIdxSet xs).Nodup :=
  nodup_extendIdxSet xs [] List.nodup_nil

theorem mem_collectIdxSet [DecidableEq α] (xs : List α) (b : α) :
    b ∈ collectIdxSet xs ↔ b ∈ xs := by
  unfold collectIdxSet
  rw [mem_extendIdxSet]
  simp

theorem getElem?_extendIdxSet [DecidableEq α] (xs l : List α) (j : Nat) (a : α)
    (h : l[j]? = some a) : (extendIdxSet l xs)[j]? = some a := by
  obtain ⟨t, ht, -⟩ := extendIdxSet_suffix xs l
  rw [ht]
  have hj : j < l.length := by
    by_contra hge
    rw [List.getElem?_eq_none (Nat.le_of_not_lt hge)] at h
    exact Option.noConfusion h
  rw [List.getElem?_append, if_pos hj]
  exact h

/- ===== Lemmas about getIndexOf ===== -/

theorem getIndexOf_eq_some [DecidableEq α] (l : List α) (a : α) (k : Nat) [Inhabited α]
    (h : getIndexOf l a = some k) : k < l.length ∧ l.getD k default = a := by
  induction l generalizing k with
  | nil => exact absurd h (by simp [getIndexOf])
  | cons x xs ih =>
    unfold getIndexOf at h
    by_cases hx : x = a
    · rw [if_pos hx] at h
      cases h
      simpa using hx
    · rw [if_neg hx] at h
      cases hk : getIndexOf xs a with
      | none => rw [hk] at h; simp at h
      | some k0 =>
        rw [hk] at h
        simp only [Option.map_some'] at h
        obtain ⟨hk0, hget⟩ := ih k0 hk
        cases h
        constructor
        · simpa using hk0
        · simpa using hget

theorem getIndexOf_eq_none [DecidableEq α] (l : List α) (a : α) :
    getIndexOf l a = none ↔ ¬a ∈ l := by
  induction l with
  | nil => simp [getIndexOf]
  | cons x xs ih =>
    unfold getIndexOf
    by_cases hx : x = a
    · simp [if_pos hx, hx]
    · simp only [if_neg hx, Option.map_eq_none', ih, List.mem_cons]
      constructor
      · rintro hns (rfl | hm)
        · exact hx rfl
        · exact hns hm
      · intro hn hm
        exact hn (Or.inr hm)

theorem getIndexOf_isSome [DecidableEq α] (l : List α) (a : α) (h : a ∈ l) :
    ∃ k, getIndexOf l a = some k := by
  cases hk : getIndexOf l a with
  | none => exact absurd h ((getIndexOf_eq_none l a).mp hk)
  | some k => exact ⟨k, rfl⟩

/- ===== Lemmas about the allocation registry lookup ===== -/

theorem lookupAlloc_mem (ps : List (AllocId × GlobalAlloc)) (a : AllocId) (g : GlobalAlloc)
    (h : lookupAlloc ps a = some g) : ∃ p ∈ ps, p.1 = a ∧ p.2 = g := by
  induction ps with
  | nil => exact absurd h (by simp [lookupAlloc])
  | cons p ps ih =>
    unfold lookupAlloc at h
    by_cases hp : p.1 = a
    · rw [if_pos hp] at h
      cases h
      exact ⟨p, List.mem_cons_self _ _, hp, rfl⟩
    · rw [if_neg hp] at h
      obtain ⟨q, hq, hqa, hqg⟩ := ih h
      exact ⟨q, List.mem_cons_of_mem _ hq, hqa, hqg⟩

/- ===== Lemmas about the frontier loop ===== -/

theorem nodup_subset_length_le [DecidableEq α] (l U : List α) (hl : l.Nodup)
    (hsub : ∀ a ∈ l, a ∈ U) : l.length ≤ U.length :=
  (List.subperm_of_subset hl hsub).length_le

/- The inner push of the static branch always extends acc on the right. -/
theorem staticPush_appends (statics : List LocalDefId) (d : DefId) (acc : List Nat) :
    ∃ p, staticPush statics d acc = acc ++ p := by
  unfold staticPush
  cases hd : d.asLocal with
  | none => exact ⟨[], by simp⟩
  | some s =>
    cases hk : getIndexOf statics s with
    | none => exact ⟨[], by simp [pushIfCandidate, hk]⟩
    | some k => exact ⟨[k], by simp [pushIfCandidate, hk]⟩

theorem collectLoop_appends (lookup : AllocId → Option GlobalAlloc) (statics : List LocalDefId) :
    ∀ fuel i ids acc, ∃ accExt idsExt,
      collectLoop lookup statics fuel i ids acc = (acc ++ accExt, ids ++ idsExt) := by
  intro fuel
  induction fuel with
  | zero => exact fun i ids acc => ⟨[], [], by simp [collectLoop]⟩
  | succ f ih =>
    intro i ids acc
    cases h : ids[i]? with
    | none => exact ⟨[], [], by simp [collectLoop, h]⟩
    | some a =>
      cases hl : lookup a with
      | none =>
        obtain ⟨a2, i2, hrec⟩ := ih (i + 1) ids acc
        exact ⟨a2, i2, by simp only [collectLoop, h, hl]; exact hrec⟩
      | some g =>
        cases g with
        | staticAlloc d =>
          obtain ⟨p, hp⟩ := staticPush_appends statics d acc
          obtain ⟨a2, i2, hrec⟩ := ih (i + 1) ids (acc ++ p)
          refine ⟨p ++ a2, i2, ?_⟩
          simp only [collectLoop, h, hl]
          rw [hp, hrec, ← List.append_assoc]
        | memory m =>
          obtain ⟨t, ht, -⟩ := extendIdxSet_suffix m.provenance ids
          obtain ⟨a2, i2, hrec⟩ := ih (i + 1) (extendIdxSet ids m.provenance) acc
          refine ⟨a2, t ++ i2, ?_⟩
          simp only [collectLoop, h, hl]
          rw [hrec, ht, List.append_assoc]
        | functionAlloc n =>
          obtain ⟨a2, i2, hrec⟩ := ih (i + 1) ids acc
          exact ⟨a2, i2, by simp only [collectLoop, h, hl]; exact hrec⟩
        | vtableAlloc n =>
          obtain ⟨a2, i2, hrec⟩ := ih (i + 1) ids acc
          exact ⟨a2, i2, by simp only [collectLoop, h, hl]; exact hrec⟩

theorem collectLoop_snd_nodup (lookup : AllocId → Option GlobalAlloc)
    (statics : List LocalDefId) :
    ∀ fuel i ids acc, ids.Nodup → ((collectLoop lookup statics fuel i ids acc).2).Nodup := by
  intro fuel
  induction fuel with
  | zero => exact fun i ids acc h => by simpa [collectLoop] using h
  | succ f ih =>
    intro i ids acc hnd
    cases h : ids[i]? with
    | none => simpa [collectLoop, h] using hnd
    | some a =>
      cases hl : lookup a with
      | none => simp only [collectLoop, h, hl]; exact ih _ _ _ hnd
      | some g =>
        cases g with
        | staticAlloc d => simp only [collectLoop, h, hl]; exact ih _ _ _ hnd
        | memory m =>
          simp only [collectLoop, h, hl]
          exact ih _ _ _ (nodup_extendIdxSet _ _ hnd)
        | functionAlloc n => simp only [collectLoop, h, hl]; exact ih _ _ _ hnd
        | vtableAlloc n => simp only [collectLoop, h, hl]; exact ih _ _ _ hnd

theorem getElem?_extend_lt [DecidableEq α] (xs l : List α) (j : Nat) (hj : j < l.length) :
    (extendIdxSet l xs)[j]? = l[j]? := by
  obtain ⟨t, ht, -⟩ := extendIdxSet_suffix xs l
  rw [ht, List.getElem?_append, if_pos hj]

theorem mem_exists_getElem (l : List α) (a : α) (h : a ∈ l) :
    ∃ j, j < l.length ∧ l[j]? = some a := by
  induction l with
  | nil => cases h
  | cons x xs ih =>
    rcases List.mem_cons.mp h with rfl | hm
    · exact ⟨0, by simp, by simp⟩
    · obtain ⟨j, hj, hget⟩ := ih hm
      exact ⟨j + 1, by simpa using hj, by simpa using hget⟩

/- Termination of the frontier scan: with the frontier deduplicated and
   drawn from the finite universe U, any fuel of at least |U| + 1 - i gives
   the same result — the loop breaks on its own once the index passes the
   last element. -/
theorem collectLoop_stable (lookup : AllocId → Option GlobalAlloc) (statics : List LocalDefId)
    (U : List AllocId)
    (hclosed : ∀ a m, lookup a = some (GlobalAlloc.memory m) → ∀ b ∈ m.provenance, b ∈ U) :
    ∀ fuel1 fuel2 i ids acc, ids.Nodup → (∀ a ∈ ids, a ∈ U) →
      U.length + 1 ≤ fuel1 + i → U.length + 1 ≤ fuel2 + i →
      collectLoop lookup statics fuel1 i ids acc = collectLoop lookup statics fuel2 i ids acc := by
  intro fuel1
  induction fuel1 with
  | zero =>
    intro fuel2 i ids acc hnd hsub hf1 hf2
    have hlen : ids.length ≤ U.length := nodup_subset_length_le ids U hnd hsub
    have hnone : ids[i]? = none := List.getElem?_eq_none (by omega)
    cases fuel2 with
    | zero => rfl
    | succ g => simp [collectLoop, hnone]
  | succ f ih =>
    intro fuel2 i ids acc hnd hsub hf1 hf2
    cases fuel2 with
    | zero =>
      have hlen : ids.length ≤ U.length := nodup_subset_length_le ids U hnd hsub
      have hnone : ids[i]? = none := List.getElem?_eq_none (by omega)
      simp [collectLoop, hnone]
    | succ g =>
      cases h : ids[i]? with
      | none => simp [collectLoop, h]
      | some a =>
        cases hl : lookup a with
        | none =>
          simp only [collectLoop, h, hl]
          exact ih g (i + 1) ids acc hnd hsub (by omega) (by omega)
        | some galloc =>
          cases galloc with
          | staticAlloc d =>
            simp only [collectLoop, h, hl]
            exact ih g (i + 1) ids (staticPush statics d acc) hnd hsub (by omega) (by omega)
          | memory m =>
            simp only [collectLoop, h, hl]
            refine ih g (i + 1) (extendIdxSet ids m.provenance) acc
              (nodup_extendIdxSet _ _ hnd) ?_ (by omega) (by omega)
            intro b hb
            rcases (mem_extendIdxSet _ _ _).mp hb with hbl | hbp
            · exact hsub b hbl
            · exact hclosed a m hl b hbp
          | functionAlloc n =>
            simp only [collectLoop, h, hl]
            exact ih g (i + 1) ids acc hnd hsub (by omega) (by omega)
          | vtableAlloc n =>
            simp only [collectLoop, h, hl]
            exact ih g (i + 1) ids acc hnd hsub (by omega) (by omega)

theorem entryProcessed_mono (lookup : AllocId → Option GlobalAlloc) (statics : List LocalDefId)
    (ids acc ids2 acc2) (a : AllocId)
    (h : entryProcessed lookup statics ids acc a)
    (hids : ∀ b ∈ ids, b ∈ ids2) (hacc : ∀ k ∈ acc, k ∈ acc2) :
    entryProcessed lookup statics ids2 acc2 a :=
  ⟨fun m hm b hb => hids b (h.1 m hm b hb),
   fun d s k h1 h2 h3 => hacc k (h.2 d s k h1 h2 h3)⟩

/- Saturation: when the loop runs to its natural break, every frontier
   entry has been handled with respect to the final frontier and edge list. -/
theorem collectLoop_sat (lookup : AllocId → Option GlobalAlloc) (statics : List LocalDefId)
    (U : List AllocId)
    (hclosed : ∀ a m, lookup a = some (GlobalAlloc.memory m) → ∀ b ∈ m.provenance, b ∈ U) :
    ∀ fuel i ids acc, ids.Nodup → (∀ a ∈ ids, a ∈ U) → U.length + 1 ≤ fuel + i →
      (∀ j, j < i → ∀ a, ids[j]? = some a → entryProcessed lookup statics ids acc a) →
      ∀ a ∈ (collectLoop lookup statics fuel i ids acc).2,
        entryProcessed lookup statics (collectLoop lookup statics fuel i ids acc).2
          (collectLoop lookup statics fuel i ids acc).1 a := by
  intro fuel
  induction fuel with
  | zero =>
    intro i ids acc hnd hsub hf hist a ha
    have hlen : ids.length ≤ U.length := nodup_subset_length_le ids U hnd hsub
    simp only [collectLoop] at ha ⊢
    obtain ⟨j, hj, hget⟩ := mem_exists_getElem ids a ha
    exact hist j (by omega) a hget
  | succ f ih =>
    intro i ids acc hnd hsub hf hist
    cases h : ids[i]? with
    | none =>
      intro a ha
      simp only [collectLoop, h] at ha ⊢
      obtain ⟨j, hj, hget⟩ := mem_exists_getElem ids a ha
      have hi : ids.length ≤ i := by
        by_contra hlt
        rw [List.getElem?_eq_getElem (Nat.lt_of_not_le hlt)] at h
        exact Option.noConfusion h
      exact hist j (by omega) a hget
    | some a0 =>
      have hia : i < ids.length := by
        by_contra hge
        rw [List.getElem?_eq_none (Nat.le_of_not_lt hge)] at h
        exact Option.noConfusion h
      cases hl : lookup a0 with
      | none =>
        simp only [collectLoop, h, hl]
        refine ih (i + 1) ids acc hnd hsub (by omega) ?_
        intro j hj a hget
        rcases Nat.lt_succ_iff_lt_or_eq.mp hj with hjlt | rfl
        · exact hist j hjlt a hget
        · rw [h] at hget
          cases hget
          constructor
          · intro m hm; rw [hl] at hm; exact Option.noConfusion hm
          · intro d s k h1 _ _; rw [hl] at h1; exact Option.noConfusion h1
      | some galloc =>
        cases galloc with
        | staticAlloc d =>
          simp only [collectLoop, h, hl]
          obtain ⟨p, hp⟩ := staticPush_appends statics d acc
          refine ih (i + 1) ids (staticPush statics d acc) hnd hsub (by omega) ?_
          intro j hj a hget
          rcases Nat.lt_succ_iff_lt_or_eq.mp hj with hjlt | rfl
          · refine entryProcessed_mono lookup statics ids acc ids _ a
              (hist j hjlt a hget) (fun b hb => hb) ?_
            intro k hk
            rw [hp]
            exact List.mem_append_left _ hk
          · rw [h] at hget
            cases hget
            constructor
            · intro m hm; rw [hl] at hm; simp at hm
            · intro d2 s k h1 h2 h3
              rw [hl] at h1
              have hd2 : d2 = d := by
                have := Option.some.inj h1
                cases this
                rfl
              subst hd2
              unfold staticPush
              rw [h2]
              show k ∈ pushIfCandidate (getIndexOf statics s) acc
              rw [h3]
              simp [pushIfCandidate]
        | memory m =>
          simp only [collectLoop, h, hl]
          have hsub2 : ∀ b ∈ extendIdxSet ids m.provenance, b ∈ U := by
            intro b hb
            rcases (mem_extendIdxSet _ _ _).mp hb with hbl | hbp
            · exact hsub b hbl
            · exact hclosed a0 m hl b hbp
          refine ih (i + 1) (extendIdxSet ids m.provenance) acc
            (nodup_extendIdxSet _ _ hnd) hsub2 (by omega) ?_
          intro j hj a hget
          rcases Nat.lt_succ_iff_lt_or_eq.mp hj with hjlt | rfl
          · have hjlen : j < ids.length := by omega
            rw [getElem?_extend_lt _ _ _ hjlen] at hget
            refine entryProcessed_mono lookup statics ids acc _ acc a
              (hist j hjlt a hget) ?_ (fun k hk => hk)
            intro b hb
            exact (mem_extendIdxSet _ _ _).mpr (Or.inl hb)
          · rw [getElem?_extend_lt _ _ _ hia, h] at hget
            cases hget
            constructor
            · intro m2 hm2
              rw [hl] at hm2
              have hm2eq : m2 = m := by
                have := Option.some.inj hm2
                cases this
                rfl
              subst hm2eq
              intro b hb
              exact (mem_extendIdxSet _ _ _).mpr (Or.inr hb)
            · intro d s k h1 _ _; rw [hl] at h1; simp at h1
        | functionAlloc n =>
          simp only [collectLoop, h, hl]
          refine ih (i + 1) ids acc hnd hsub (by omega) ?_
          intro j hj a hget
          rcases Nat.lt_succ_iff_lt_or_eq.mp hj with hjlt | rfl
          · exact hist j hjlt a hget
          · rw [h] at hget
            cases hget
            constructor
            · intro m hm; rw [hl] at hm; simp at hm
            · intro d s k h1 _ _; rw [hl] at h1; simp at h1
        | vtableAlloc n =>
          simp only [collectLoop, h, hl]
          refine ih (i + 1) ids acc hnd hsub (by omega) ?_
          intro j hj a hget
          rcases Nat.lt_succ_iff_lt_or_eq.mp hj with hjlt | rfl
          · exact hist j hjlt a hget
          · rw [h] at hget
            cases hget
            constructor
            · intro m hm; rw [hl] at hm; simp at hm
            · intro d s k h1 _ _; rw [hl] at h1; simp at h1

/- ===== The canonical invocation of the frontier loop ===== -/

theorem lookupAlloc_closed (ctx : EarlyCtx) (root : Allocation) :
    ∀ a m, lookupAlloc ctx.globalAllocs a = some (GlobalAlloc.memory m) →
      ∀ b ∈ m.provenance, b ∈ allocIdUniverse ctx root := by
  intro a m h b hb
  obtain ⟨p, hp, hpa, hpg⟩ := lookupAlloc_mem _ _ _ h
  rw [allocIdUniverse, mem_collectIdxSet]
  refine List.mem_append_right _ ?_
  rw [List.mem_flatten]
  refine ⟨allocProvenance p.2, List.mem_map.mpr ⟨p, hp, rfl⟩, ?_⟩
  rw [hpg]
  simpa [allocProvenance] using hb

theorem initFrontier_nodup (root : Allocation) :
    (extendIdxSet ([] : List AllocId) root.provenance).Nodup :=
  nodup_extendIdxSet _ _ List.nodup_nil

theorem initFrontier_sub (ctx : EarlyCtx) (root : Allocation) :
    ∀ b ∈ extendIdxSet ([] : List AllocId) root.provenance, b ∈ allocIdUniverse ctx root := by
  intro b hb
  rcases (mem_extendIdxSet _ _ _).mp hb with hb0 | hbp
  · cases hb0
  · rw [allocIdUniverse, mem_collectIdxSet]
    exact List.mem_append_left _ hbp

/- The canonical run of the loop: the root's provenance is in the final
   frontier, and every final frontier entry has been handled. -/
theorem collect_frontier_spec (ctx : EarlyCtx) (root : Allocation) (statics : List LocalDefId) :
    (∀ b ∈ root.provenance,
        b ∈ (collectLoop (lookupAlloc ctx.globalAllocs) statics (fuelBound ctx root) 0
          (extendIdxSet [] root.provenance) []).2) ∧
    (∀ a ∈ (collectLoop (lookupAlloc ctx.globalAllocs) statics (fuelBound ctx root) 0
          (extendIdxSet [] root.provenance) []).2,
        entryProcessed (lookupAlloc ctx.globalAllocs) statics
          (collectLoop (lookupAlloc ctx.globalAllocs) statics (fuelBound ctx root) 0
            (extendIdxSet [] root.provenance) []).2
          (collectLoop (lookupAlloc ctx.globalAllocs) statics (fuelBound ctx root) 0
            (extendIdxSet [] root.provenance) []).1 a) := by
  constructor
  · intro b hb
    obtain ⟨a2, i2, heq⟩ := collectLoop_appends (lookupAlloc ctx.globalAllocs) statics
      (fuelBound ctx root) 0 (extendIdxSet [] root.provenance) []
    rw [heq]
    exact List.mem_append_left _ ((mem_extendIdxSet _ _ _).mpr (Or.inr hb))
  · exact collectLoop_sat (lookupAlloc ctx.globalAllocs) statics (allocIdUniverse ctx root)
      (lookupAlloc_closed ctx root) (fuelBound ctx root) 0 _ []
      (initFrontier_nodup root) (initFrontier_sub ctx root) (Nat.le_refl _)
      (fun j hj => absurd hj (Nat.not_lt_zero j))

/- ===== Rows of the early graph ===== -/

theorem getD_map_of_lt (f : α → β) (l : List α) (k : Nat) (dA : α) (dB : β)
    (hk : k < l.length) : (l.map f).getD k dB = f (l.getD k dA) := by
  rw [List.getD_eq_getElem?_getD, List.getD_eq_getElem?_getD, List.getElem?_map,
    List.getElem?_eq_getElem hk]
  simp

theorem earlyGraphRow (ctx : EarlyCtx) (S : LocalDefId) (k : Nat)
    (hk : getIndexOf (collectStatics ctx.hirItems) S = some k) :
    (earlyGraphSucc ctx).getD k [] =
      (match ctx.evalStaticInitializer S with
       | some rootAlloc =>
         collect_referenced_local_statics ctx rootAlloc (collectStatics ctx.hirItems)
       | none => []) := by
  obtain ⟨hklt, hgetD⟩ := getIndexOf_eq_some _ _ _ hk
  unfold earlyGraphSucc
  rw [getD_map_of_lt _ _ _ default _ hklt, hgetD]

theorem earlyGraph_length (ctx : EarlyCtx) :
    (earlyGraphSucc ctx).length = (collectStatics ctx.hirItems).length := by
  unfold earlyGraphSucc
  exact List.length_map _ _

/- ===== Lemmas about the component grouping ===== -/

theorem getD_set_self (l : List α) (i : Nat) (v d : α) (h : i < l.length) :
    (l.set i v).getD i d = v := by
  rw [List.getD_eq_getElem?_getD, List.getElem?_set_self h]
  rfl

theorem getD_set_ne (l : List α) (i j : Nat) (v d : α) (h : i ≠ j) :
    (l.set i v).getD j d = l.getD j d := by
  rw [List.getD_eq_getElem?_getD, List.getElem?_set_ne h, ← List.getD_eq_getElem?_getD]

theorem buildMembers_succ (sccs : Sccs) (n : Nat) :
    buildMembers sccs (n + 1) =
      (buildMembers sccs n).set (sccs.sccOf n)
        ((buildMembers sccs n).getD (sccs.sccOf n) [] ++ [n]) := by
  unfold buildMembers
  rw [List.range_succ, List.foldl_append]
  rfl

theorem buildMembers_length (sccs : Sccs) (n : Nat) :
    (buildMembers sccs n).length = sccs.numSccs := by
  induction n with
  | zero => simp [buildMembers]
  | succ n ih => rw [buildMembers_succ, List.length_set]; exact ih

theorem buildMembers_getD (sccs : Sccs) :
    ∀ n c, c < sccs.numSccs →
      (buildMembers sccs n).getD c [] =
        (List.range n).filter fun i => decide (sccs.sccOf i = c) := by
  intro n
  induction n with
  | zero =>
    intro c hc
    show (List.replicate sccs.numSccs ([] : List Nat)).getD c [] = _
    rw [List.getD_eq_getElem?_getD, List.getElem?_replicate]
    simp [hc]
  | succ n ih =>
    intro c hc
    rw [buildMembers_succ, List.range_succ, List.filter_append]
    by_cases hcn : sccs.sccOf n = c
    · rw [hcn, getD_set_self _ _ _ _ (by rw [buildMembers_length]; exact hc), ih c hc]
      simp [hcn]
    · rw [getD_set_ne _ _ _ _ _ hcn, ih c hc]
      simp [hcn]

/- ===== Characterization of the emitted diagnostics ===== -/

theorem pairwise_head_min (L : List Nat) (h : List.Pairwise (· < ·) L) :
    ∀ x ∈ L, L.getD 0 0 ≤ x := by
  cases L with
  | nil => intro x hx; cases hx
  | cons d rest =>
    intro x hx
    rcases List.mem_cons.mp hx with rfl | hm
    · simp
    · have hd := (List.pairwise_cons.mp h).1 x hm
      simpa using Nat.le_of_lt hd

theorem members_pairwise (sccs : Sccs) (n c : Nat) (hc : c < sccs.numSccs) :
    List.Pairwise (· < ·) ((buildMembers sccs n).getD c []) := by
  rw [buildMembers_getD sccs n c hc]
  exact List.Pairwise.sublist (List.filter_sublist _) (List.pairwise_lt_range n)

theorem filterMap_ite (g : α → Option β) (p : α → Bool) (f : α → β)
    (hg : ∀ c, g c = if p c then none else some (f c)) :
    ∀ L : List α, L.filterMap g = (L.filter fun c => !p c).map f := by
  intro L
  induction L with
  | nil => rfl
  | cons x L ih =>
    rw [List.filterMap_cons, List.filter_cons, hg x]
    cases hp : p x with
    | true => simpa [hp] using ih
    | false => simp [hp, ih]

theorem firstGuar_ok_iff (L : List Diag) : firstGuar L = Except.ok () ↔ L = [] := by
  cases L with
  | nil => simp [firstGuar]
  | cons d rest => simp [firstGuar]

theorem firstGuar_cons (d : Diag) (rest : List Diag) :
    firstGuar (d :: rest) = Except.error d := rfl

theorem check_early_snd (ctx : EarlyCtx) (sccs : Sccs) :
    (check_static_initializer_acyclic ctx sccs).2 =
      firstGuar (check_static_initializer_acyclic ctx sccs).1 := by
  unfold check_static_initializer_acyclic
  by_cases h : (collectStatics ctx.hirItems).isEmpty
  · simp [h, firstGuar]
  · simp [h]

theorem earlyDiags_characterization (ctx : EarlyCtx) (sccs : Sccs)
    (h : (collectStatics ctx.hirItems).isEmpty = false) :
    (check_static_initializer_acyclic ctx sccs).1 =
      ((List.range sccs.numSccs).filter fun c =>
          !sccIsAcyclic (fun n => (earlyGraphSucc ctx).getD n [])
            ((buildMembers sccs (collectStatics ctx.hirItems).length).getD c [])).map
        fun c => mkCycleDiag ctx.defSpan ctx.defPathStr ctx.llvmTarget
          (collectStatics ctx.hirItems)
          ((buildMembers sccs (collectStatics ctx.hirItems).length).getD c []) := by
  unfold check_static_initializer_acyclic
  simp only [h, Bool.false_eq_true, if_false]
  exact filterMap_ite _ _ _ (fun c => rfl) _

/- ===== The late check under a total usage relation ===== -/

theorem lateScc_isSome (statics : List DefId) (usedMap : MonoItem → Option (List MonoItem))
    (nodes : List Nat)
    (h : ∀ x, nodes = [x] → (usedMap (MonoItem.staticItem (statics.getD x default))).isSome) :
    (lateSccIsAcyclic statics usedMap nodes).isSome := by
  match nodes with
  | [] => simp [lateSccIsAcyclic]
  | [x] =>
    have hx := h x rfl
    simp only [lateSccIsAcyclic, lateSuccessors]
    cases hm : usedMap (MonoItem.staticItem (statics.getD x default)) with
    | none => rw [hm] at hx; simp at hx
    | some uses => simp
  | x :: y :: rest => simp [lateSccIsAcyclic]

theorem lateDiagLoop_characterization (ctx : LateCtx) (statics : List DefId)
    (members : List (List Nat)) :
    ∀ L : List Nat,
      (∀ c ∈ L, (lateSccIsAcyclic statics ctx.usedMap (members.getD c [])).isSome) →
      lateDiagLoop ctx statics members L =
        some ((L.filter fun c =>
            decide (lateSccIsAcyclic statics ctx.usedMap (members.getD c []) = some false)).map
          fun c => mkCycleDiag ctx.defSpanD ctx.defPathStrD ctx.llvmTarget statics
            (members.getD c [])) := by
  intro L
  induction L with
  | nil => intro _; rfl
  | cons c L ih =>
    intro hall
    have hc := hall c (List.mem_cons_self _ _)
    have hrest := fun x hx => hall x (List.mem_cons_of_mem _ hx)
    rw [lateDiagLoop, List.filter_cons]
    cases hcc : lateSccIsAcyclic statics ctx.usedMap (members.getD c []) with
    | none => rw [hcc] at hc; simp at hc
    | some b =>
      cases b with
      | true =>
        simp only [hcc]
        rw [ih hrest]
        simp [hcc]
      | false =>
        simp only [hcc]
        rw [ih hrest]
        simp [hcc]

/- ===== Classification lemmas ===== -/

theorem sccIsAcyclic_false_iff (succOf : Nat → List Nat) (nodes : List Nat) :
    sccIsAcyclic succOf nodes = false ↔
      2 ≤ nodes.length ∨
        (nodes.length = 1 ∧ nodes.getD 0 0 ∈ succOf (nodes.getD 0 0)) := by
  match nodes with
  | [] => simp [sccIsAcyclic]
  | [x] =>
    constructor
    · intro hfalse
      replace hfalse : ((succOf x).all fun y => y != x) = false := hfalse
      refine Or.inr ⟨rfl, ?_⟩
      show x ∈ succOf x
      rw [Bool.eq_false_iff] at hfalse
      by_contra hx
      apply hfalse
      rw [List.all_eq_true]
      intro y hy
      rw [bne_iff_ne]
      rintro rfl
      exact hx hy
    · rintro (h2 | ⟨h1, hx⟩)
      · simp at h2
      · show ((succOf x).all fun y => y != x) = false
        rw [Bool.eq_false_iff]
        intro hall
        rw [List.all_eq_true] at hall
        have hx2 : x ∈ succOf x := hx
        exact absurd rfl (bne_iff_ne.mp (hall x hx2))
  | x :: y :: rest =>
    simp [sccIsAcyclic]

theorem lateScc_false_iff (statics : List DefId) (usedMap : MonoItem → Option (List MonoItem))
    (nodes : List Nat)
    (h : ∀ x, nodes = [x] → (usedMap (MonoItem.staticItem (statics.getD x default))).isSome) :
    lateSccIsAcyclic statics usedMap nodes = some false ↔
      2 ≤ nodes.length ∨
        (nodes.length = 1 ∧
          nodes.getD 0 0 ∈ (lateSuccessors statics usedMap (nodes.getD 0 0)).getD []) := by
  match nodes with
  | [] => simp [lateSccIsAcyclic]
  | [x] =>
    have hx := h x rfl
    cases hm : usedMap (MonoItem.staticItem (statics.getD x default)) with
    | none => rw [hm] at hx; simp at hx
    | some uses =>
      have hsucc : lateSuccessors statics usedMap x =
          some (uses.filterMap fun m =>
            match m with
            | MonoItem.staticItem d => getIndexOf statics d
            | _ => none) := by
        unfold lateSuccessors
        rw [hm]
        rfl
      constructor
      · intro hfalse
        replace hfalse : (lateSuccessors statics usedMap x).map
            (List.all · fun y => y != x) = some false := hfalse
        rw [hsucc] at hfalse
        have hall : ((uses.filterMap fun m =>
            match m with
            | MonoItem.staticItem d => getIndexOf statics d
            | _ => none).all fun y => y != x) = false := by
          have := Option.some.inj hfalse
          exact this
        refine Or.inr ⟨rfl, ?_⟩
        show x ∈ (lateSuccessors statics usedMap x).getD []
        rw [hsucc]
        show x ∈ uses.filterMap fun m =>
          match m with
          | MonoItem.staticItem d => getIndexOf statics d
          | _ => none
        rw [Bool.eq_false_iff] at hall
        by_contra hmem
        apply hall
        rw [List.all_eq_true]
        intro y hy
        rw [bne_iff_ne]
        rintro rfl
        exact hmem hy
      · rintro (h2 | ⟨h1, hmem⟩)
        · simp at h2
        · replace hmem : x ∈ (lateSuccessors statics usedMap x).getD [] := hmem
          rw [hsucc] at hmem
          replace hmem : x ∈ uses.filterMap fun m =>
              match m with
              | MonoItem.staticItem d => getIndexOf statics d
              | _ => none := hmem
          show (lateSuccessors statics usedMap x).map
            (List.all · fun y => y != x) = some false
          rw [hsucc]
          simp only [Option.map_some', Option.some.injEq]
          rw [Bool.eq_false_iff]
          intro hall
          rw [List.all_eq_true] at hall
          exact absurd rfl (bne_iff_ne.mp (hall x hmem))
  | x :: y :: rest =>
    simp [lateSccIsAcyclic]

theorem earlySccDiag_isSome_iff (ctx : EarlyCtx) (sccs : Sccs) (c : Nat) :
    (earlySccDiag ctx sccs c).isSome = true ↔
      sccIsAcyclic (fun n => (earlyGraphSucc ctx).getD n [])
        ((buildMembers sccs (collectStatics ctx.hirItems).length).getD c []) = false := by
  simp only [earlySccDiag]
  by_cases hA : sccIsAcyclic (fun n => (earlyGraphSucc ctx).getD n [])
      ((buildMembers sccs (collectStatics ctx.hirItems).length).getD c []) = true
  · rw [if_pos hA, hA]
    simp
  · rw [if_neg hA]
    have hA2 : sccIsAcyclic (fun n => (earlyGraphSucc ctx).getD n [])
        ((buildMembers sccs (collectStatics ctx.hirItems).length).getD c []) = false := by
      cases hE : sccIsAcyclic (fun n => (earlyGraphSucc ctx).getD n [])
          ((buildMembers sccs (collectStatics ctx.hirItems).length).getD c []) with
      | true => exact absurd hE hA
      | false => rfl
    rw [hA2]
    simp

/- ===== Further frontier-loop facts ===== -/

theorem collectLoop_snd_sub (lookup : AllocId → Option GlobalAlloc)
    (statics : List LocalDefId) (U : List AllocId)
    (hclosed : ∀ a m, lookup a = some (GlobalAlloc.memory m) → ∀ b ∈ m.provenance, b ∈ U) :
    ∀ fuel i ids acc, (∀ a ∈ ids, a ∈ U) →
      ∀ b ∈ (collectLoop lookup statics fuel i ids acc).2, b ∈ U := by
  intro fuel
  induction fuel with
  | zero => intro i ids acc hsub b hb; simp only [collectLoop] at hb; exact hsub b hb
  | succ f ih =>
    intro i ids acc hsub
    cases h : ids[i]? with
    | none => intro b hb; simp only [collectLoop, h] at hb; exact hsub b hb
    | some a =>
      cases hl : lookup a with
      | none => simp only [collectLoop, h, hl]; exact ih _ _ _ hsub
      | some galloc =>
        cases galloc with
        | staticAlloc d => simp only [collectLoop, h, hl]; exact ih _ _ _ hsub
        | memory m =>
          simp only [collectLoop, h, hl]
          refine ih _ _ _ ?_
          intro b hb
          rcases (mem_extendIdxSet _ _ _).mp hb with hbl | hbp
          · exact hsub b hbl
          · exact hclosed a m hl b hbp
        | functionAlloc n => simp only [collectLoop, h, hl]; exact ih _ _ _ hsub
        | vtableAlloc n => simp only [collectLoop, h, hl]; exact ih _ _ _ hsub

theorem collect_empty_root (ctx : EarlyCtx) (statics : List LocalDefId) :
    collect_referenced_local_statics ctx { provenance := [] } statics = [] := rfl

/- ===== The late loop under a total usage relation ===== -/

theorem lateLoop_total (lctx : LateCtx) (lsccs : Sccs) (statics : List DefId)
    (htot : ∀ i, i < statics.length →
      (lctx.usedMap (MonoItem.staticItem (statics.getD i default))).isSome) :
    ∀ c ∈ List.range lsccs.numSccs,
      (lateSccIsAcyclic statics lctx.usedMap
        ((buildMembers lsccs statics.length).getD c [])).isSome := by
  intro c hc
  apply lateScc_isSome
  intro x hx
  apply htot
  have hcn : c < lsccs.numSccs := List.mem_range.mp hc
  have hmem : x ∈ (buildMembers lsccs statics.length).getD c [] := by
    rw [hx]
    exact List.mem_cons_self _ _
  rw [buildMembers_getD lsccs statics.length c hcn] at hmem
  exact List.mem_range.mp (List.mem_filter.mp hmem).1

/- ===== Claim theorems ===== -/

/-- Claim C1: in both the early and the late check, a component produced by
the decomposition service is classified cyclic (and diagnosed) iff it has at
least 2 members, or exactly 1 member with a self-edge in the reference
graph; a component with zero members is skipped and never treated as
cyclic. -/
theorem claim_C1 :
    (∀ (ctx : EarlyCtx) (sccs : Sccs) (c : Nat),
      ((earlySccDiag ctx sccs c).isSome = true ↔
        (2 ≤ ((buildMembers sccs (collectStatics ctx.hirItems).length).getD c []).length ∨
          (((buildMembers sccs (collectStatics ctx.hirItems).length).getD c []).length = 1 ∧
            ((buildMembers sccs (collectStatics ctx.hirItems).length).getD c []).getD 0 0 ∈
              (earlyGraphSucc ctx).getD
                (((buildMembers sccs (collectStatics ctx.hirItems).length).getD c []).getD 0 0)
                []))) ∧
      ((buildMembers sccs (collectStatics ctx.hirItems).length).getD c [] = [] →
        earlySccDiag ctx sccs c = none)) ∧
    (∀ (statics : List DefId) (usedMap : MonoItem → Option (List MonoItem)) (nodes : List Nat),
      (∀ x, nodes = [x] → (usedMap (MonoItem.staticItem (statics.getD x default))).isSome) →
      ((lateSccIsAcyclic statics usedMap nodes = some false ↔
        (2 ≤ nodes.length ∨ (nodes.length = 1 ∧
          nodes.getD 0 0 ∈ (lateSuccessors statics usedMap (nodes.getD 0 0)).getD []))) ∧
        (nodes = [] → lateSccIsAcyclic statics usedMap nodes = some true))) := by
  constructor
  · intro ctx sccs c
    constructor
    · rw [earlySccDiag_isSome_iff]
      exact sccIsAcyclic_false_iff _ _
    · intro hnil
      simp only [earlySccDiag]
      rw [hnil]
      simp [sccIsAcyclic]
  · intro statics usedMap nodes h
    refine ⟨lateScc_false_iff statics usedMap nodes h, ?_⟩
    rintro rfl
    rfl

/-- Witness for C1: in the blob-cycle crate the single component {0} is
diagnosed because node 0 has a self-edge, and in the late mutual-cycle
universe the two-member component is classified cyclic. -/
theorem claim_C1_witness :
    (earlySccDiag blobCycleCtx oneScc 0).isSome = true ∧
    lateSccIsAcyclic (collectMonoStatics mutualLateCtx.monoItems) mutualLateCtx.usedMap
      [0, 1] = some false := by
  constructor
  · exact (claim_C1.1 blobCycleCtx oneScc 0).1.mpr (Or.inr ⟨by decide, by decide⟩)
  · exact ((claim_C1.2 (collectMonoStatics mutualLateCtx.monoItems) mutualLateCtx.usedMap
      [0, 1] (by intro x hx; simp at hx)).1).mpr (Or.inl (by decide))

/-- Claim C7: when the usage relation has an entry for a candidate, the
late successors computation never fails and returns exactly the handles of
the static entries of the direct-uses list that are in the candidate set
(duplicates included without error); a missing entry makes the lookup fail
(the fatal contract violation), which is not a diagnostic. -/
theorem claim_C7 (statics : List DefId) (usedMap : MonoItem → Option (List MonoItem)) (i : Nat) :
    (∀ uses, usedMap (MonoItem.staticItem (statics.getD i default)) = some uses →
      lateSuccessors statics usedMap i =
        some (uses.filterMap fun m =>
          match m with
          | MonoItem.staticItem d => getIndexOf statics d
          | _ => none) ∧
      ∀ hnd : Nat, (hnd ∈ (lateSuccessors statics usedMap i).getD [] ↔
        ∃ d, MonoItem.staticItem d ∈ uses ∧ getIndexOf statics d = some hnd)) ∧
    (usedMap (MonoItem.staticItem (statics.getD i default)) = none →
      lateSuccessors statics usedMap i = none) := by
  constructor
  · intro uses huses
    have hsucc : lateSuccessors statics usedMap i =
        some (uses.filterMap fun m =>
          match m with
          | MonoItem.staticItem d => getIndexOf statics d
          | _ => none) := by
      unfold lateSuccessors
      rw [huses]
      rfl
    refine ⟨hsucc, ?_⟩
    intro hnd
    rw [hsucc]
    simp only [Option.getD_some]
    constructor
    · intro hmem
      obtain ⟨m, hm, hfm⟩ := List.mem_filterMap.mp hmem
      cases m with
      | staticItem d => exact ⟨d, hm, hfm⟩
      | fnItem n => simp at hfm
      | globalAsmItem n => simp at hfm
    · rintro ⟨d, hd, hk⟩
      exact List.mem_filterMap.mpr ⟨MonoItem.staticItem d, hd, hk⟩
  · intro hnone
    unfold lateSuccessors
    rw [hnone]
    rfl

/-- Witness for C7: the second candidate of the mutual-cycle universe has a
duplicate entry in its use list and yields the handle twice with no error,
while an empty usage map makes the same lookup fail. -/
theorem claim_C7_witness :
    lateSuccessors (collectMonoStatics mutualLateCtx.monoItems) mutualLateCtx.usedMap 1 =
      some [0, 0] ∧
    lateSuccessors (collectMonoStatics mutualLateCtx.monoItems) emptyUsedMap 1 = none := by
  constructor
  · exact (((claim_C7 (collectMonoStatics mutualLateCtx.monoItems) mutualLateCtx.usedMap 1).1
      [MonoItem.staticItem (DefId.localDef 0), MonoItem.staticItem (DefId.localDef 0)]
      rfl).1).trans (by decide)
  · exact (claim_C7 (collectMonoStatics mutualLateCtx.monoItems) emptyUsedMap 1).2 rfl

/-- Claim C9: the late check over the monomorphized universe runs iff the
target declares static_initializer_must_be_acyclic; with the flag unset it
does no work and emits no diagnostics. -/
theorem claim_C9 (opts : TargetOptions) (ctx : LateCtx) (sccs : Sccs) :
    (opts.static_initializer_must_be_acyclic = true →
      do_target_specific_checks opts ctx sccs =
        check_static_initializers_are_acyclic ctx sccs) ∧
    (opts.static_initializer_must_be_acyclic = false →
      do_target_specific_checks opts ctx sccs = some []) ∧
    check_mono_item_graph opts ctx sccs = do_target_specific_checks opts ctx sccs := by
  refine ⟨?_, ?_, rfl⟩
  · intro h
    simp [do_target_specific_checks, h]
  · intro h
    simp [do_target_specific_checks, h]

/-- Witness for C9: with the flag unset the gate emits nothing even though
the universe has a cycle; with the flag set it forwards to the late check. -/
theorem claim_C9_witness :
    do_target_specific_checks { static_initializer_must_be_acyclic := false }
      mutualLateCtx oneScc = some [] ∧
    do_target_specific_checks { static_initializer_must_be_acyclic := true }
      mutualLateCtx oneScc = check_static_initializers_are_acyclic mutualLateCtx oneScc :=
  ⟨(claim_C9 _ _ _).2.1 rfl, (claim_C9 _ _ _).1 rfl⟩

/-- Claim C3: when candidate S's initializer references an anonymous memory
blob whose memory references S back, the traversal records the self-edge
S→S, the singleton component {S} is classified cyclic exactly as for a
direct self-reference, and the blob is never a graph node: the graph has
exactly one row per candidate static. -/
theorem claim_C3 (ctx : EarlyCtx) (root : Allocation) (S : LocalDefId) (k : Nat)
    (b a : AllocId) (m : Allocation)
    (heval : ctx.evalStaticInitializer S = some root)
    (hk : getIndexOf (collectStatics ctx.hirItems) S = some k)
    (hb : b ∈ root.provenance)
    (hbm : lookupAlloc ctx.globalAllocs b = some (GlobalAlloc.memory m))
    (ha : a ∈ m.provenance)
    (has : lookupAlloc ctx.globalAllocs a = some (GlobalAlloc.staticAlloc (DefId.localDef S))) :
    k ∈ (earlyGraphSucc ctx).getD k [] ∧
    sccIsAcyclic (fun n => (earlyGraphSucc ctx).getD n []) [k] = false ∧
    (earlyGraphSucc ctx).length = (collectStatics ctx.hirItems).length := by
  have hrow : (earlyGraphSucc ctx).getD k [] =
      collect_referenced_local_statics ctx root (collectStatics ctx.hirItems) := by
    rw [earlyGraphRow ctx S k hk, heval]
  obtain ⟨hinit, hsat⟩ := collect_frontier_spec ctx root (collectStatics ctx.hirItems)
  have hbF := hinit b hb
  have haF := (hsat b hbF).1 m hbm a ha
  have hkF := (hsat a haF).2 (DefId.localDef S) S k has rfl hk
  have hmem : k ∈ (earlyGraphSucc ctx).getD k [] := by
    rw [hrow]
    exact hkF
  refine ⟨hmem, ?_, earlyGraph_length ctx⟩
  rw [sccIsAcyclic_false_iff]
  exact Or.inr ⟨rfl, hmem⟩

/-- Witness for C3: in the blob-cycle crate, static 5 (handle 0) gets the
self-edge through blob 20 and its singleton component is cyclic. -/
theorem claim_C3_witness :
    0 ∈ (earlyGraphSucc blobCycleCtx).getD 0 [] ∧
    sccIsAcyclic (fun n => (earlyGraphSucc blobCycleCtx).getD n []) [0] = false := by
  have h := claim_C3 blobCycleCtx { provenance := [20] } 5 0 20 21
    { provenance := [21, 20] } rfl (by decide) (by decide) rfl (by decide) rfl
  exact ⟨h.1, h.2.1⟩

/-- Claim C4: one step of the frontier scan handles its entry by exactly one
of three rules: a candidate static records the edge and leaves the frontier
unchanged; anonymous memory records no edge and enqueues only not-yet-seen
identities; any other kind records no edge and leaves the frontier
unchanged. -/
theorem claim_C4 (lookup : AllocId → Option GlobalAlloc) (statics : List LocalDefId)
    (fuel i : Nat) (ids : List AllocId) (acc : List Nat) (allocId : AllocId)
    (hi : ids[i]? = some allocId) :
    (∀ d s k, lookup allocId = some (GlobalAlloc.staticAlloc d) → d.asLocal = some s →
      getIndexOf statics s = some k →
      collectLoop lookup statics (fuel + 1) i ids acc =
        collectLoop lookup statics fuel (i + 1) ids (acc ++ [k])) ∧
    (∀ m, lookup allocId = some (GlobalAlloc.memory m) →
      collectLoop lookup statics (fuel + 1) i ids acc =
        collectLoop lookup statics fuel (i + 1) (extendIdxSet ids m.provenance) acc ∧
      ∃ t, extendIdxSet ids m.provenance = ids ++ t ∧
        ∀ x ∈ t, x ∈ m.provenance ∧ ¬x ∈ ids) ∧
    ((lookup allocId = none ∨ (∃ n, lookup allocId = some (GlobalAlloc.functionAlloc n)) ∨
        ∃ n, lookup allocId = some (GlobalAlloc.vtableAlloc n)) →
      collectLoop lookup statics (fuel + 1) i ids acc =
        collectLoop lookup statics fuel (i + 1) ids acc) := by
  refine ⟨?_, ?_, ?_⟩
  · intro d s k hl hs hk
    simp only [collectLoop, hi, hl]
    have hpush : staticPush statics d acc = acc ++ [k] := by
      unfold staticPush
      rw [hs]
      show pushIfCandidate (getIndexOf statics s) acc = acc ++ [k]
      rw [hk]
      rfl
    rw [hpush]
  · intro m hl
    exact ⟨by simp only [collectLoop, hi, hl], extendIdxSet_suffix m.provenance ids⟩
  · rintro (hl | ⟨n, hl⟩ | ⟨n, hl⟩) <;> simp only [collectLoop, hi, hl]

/-- Witness for C4: in the blob-cycle crate, entry 21 (a candidate static)
records handle 0, and entry 20 (memory) expands the frontier. -/
theorem claim_C4_witness :
    collectLoop (lookupAlloc blobCycleCtx.globalAllocs) [5] 1 0 [21] [] =
      collectLoop (lookupAlloc blobCycleCtx.globalAllocs) [5] 0 1 [21] ([] ++ [0]) ∧
    collectLoop (lookupAlloc blobCycleCtx.globalAllocs) [5] 1 0 [20] [] =
      collectLoop (lookupAlloc blobCycleCtx.globalAllocs) [5] 0 1
        (extendIdxSet [20] (Allocation.mk [21, 20]).provenance) [] := by
  constructor
  · exact (claim_C4 (lookupAlloc blobCycleCtx.globalAllocs) [5] 0 0 [21] [] 21 rfl).1
      (DefId.localDef 5) 5 0 rfl rfl rfl
  · exact ((claim_C4 (lookupAlloc blobCycleCtx.globalAllocs) [5] 0 0 [20] [] 20 rfl).2.1
      (Allocation.mk [21, 20]) rfl).1

/-- Claim C5: the frontier scan terminates on every input with a finite
allocation universe: any fuel of at least fuelBound yields the very result
of the canonical run, the visited set stays deduplicated, and it never
leaves the finite universe of allocation identities. -/
theorem claim_C5 (ctx : EarlyCtx) (root : Allocation) (statics : List LocalDefId)
    (fuel : Nat) (hfuel : fuelBound ctx root ≤ fuel) :
    (collectLoop (lookupAlloc ctx.globalAllocs) statics fuel 0
        (extendIdxSet [] root.provenance) []).1 =
      collect_referenced_local_statics ctx root statics ∧
    ((collectLoop (lookupAlloc ctx.globalAllocs) statics fuel 0
        (extendIdxSet [] root.provenance) []).2).Nodup ∧
    ∀ b ∈ (collectLoop (lookupAlloc ctx.globalAllocs) statics fuel 0
        (extendIdxSet [] root.provenance) []).2, b ∈ allocIdUniverse ctx root := by
  have hstable : collectLoop (lookupAlloc ctx.globalAllocs) statics fuel 0
      (extendIdxSet [] root.provenance) [] =
      collectLoop (lookupAlloc ctx.globalAllocs) statics (fuelBound ctx root) 0
        (extendIdxSet [] root.provenance) [] :=
    collectLoop_stable (lookupAlloc ctx.globalAllocs) statics (allocIdUniverse ctx root)
      (lookupAlloc_closed ctx root) fuel (fuelBound ctx root) 0 _ []
      (initFrontier_nodup root) (initFrontier_sub ctx root)
      (by unfold fuelBound at hfuel; omega) (by unfold fuelBound; omega)
  refine ⟨?_, ?_, ?_⟩
  · rw [hstable]
    rfl
  · exact collectLoop_snd_nodup _ _ _ _ _ _ (initFrontier_nodup root)
  · exact collectLoop_snd_sub _ _ _ (lookupAlloc_closed ctx root) _ _ _ _
      (initFrontier_sub ctx root)

/-- Witness for C5: on the blob-cycle crate, generous extra fuel changes
nothing about the recorded edges. -/
theorem claim_C5_witness :
    (collectLoop (lookupAlloc blobCycleCtx.globalAllocs) [5]
        (fuelBound blobCycleCtx (Allocation.mk [20]) + 7) 0
        (extendIdxSet [] (Allocation.mk [20]).provenance) []).1 =
      collect_referenced_local_statics blobCycleCtx (Allocation.mk [20]) [5] :=
  (claim_C5 blobCycleCtx (Allocation.mk [20]) [5]
    (fuelBound blobCycleCtx (Allocation.mk [20]) + 7) (Nat.le_add_right _ 7)).1

/-- Claim C10: a frontier entry that is a static of another crate, or a
local static outside the candidate set, contributes no edge and has no
memory scanned (the step leaves both the edge list and the frontier
unchanged); consequently a reference chain through such a static is not
seen: a crate whose only static points at a foreign static gets an empty
row and a clean check result. -/
theorem claim_C10 (lookup : AllocId → Option GlobalAlloc) (statics : List LocalDefId)
    (fuel i : Nat) (ids : List AllocId) (acc : List Nat) (allocId : AllocId) (d : DefId)
    (hi : ids[i]? = some allocId)
    (hl : lookup allocId = some (GlobalAlloc.staticAlloc d))
    (hnc : d.asLocal = none ∨ ∃ s, d.asLocal = some s ∧ getIndexOf statics s = none) :
    (collectLoop lookup statics (fuel + 1) i ids acc =
      collectLoop lookup statics fuel (i + 1) ids acc) ∧
    earlyGraphSucc foreignRefCtx = [[]] ∧
    check_static_initializer_acyclic foreignRefCtx oneScc = ([], Except.ok ()) := by
  refine ⟨?_, rfl, rfl⟩
  simp only [collectLoop, hi, hl]
  have hpush : staticPush statics d acc = acc := by
    unfold staticPush
    rcases hnc with hd | ⟨s, hd, hs⟩
    · rw [hd]
    · rw [hd]
      show pushIfCandidate (getIndexOf statics s) acc = acc
      rw [hs]
      rfl
  rw [hpush]

/-- Witness for C10: the foreign-static entry 30 of the foreign-reference
crate is skipped without expansion. -/
theorem claim_C10_witness :
    collectLoop (lookupAlloc foreignRefCtx.globalAllocs) [7] 1 0 [30] [] =
      collectLoop (lookupAlloc foreignRefCtx.globalAllocs) [7] 0 1 [30] [] :=
  (claim_C10 (lookupAlloc foreignRefCtx.globalAllocs) [7] 0 0 [30] [] 30
    (DefId.foreignDef 4) rfl rfl (Or.inl rfl)).1

/-- Claim C6: for a cyclic component in either check, the membership list is
one ascending pass over handles (so its first element is the lowest-handle
member), and the emitted diagnostic anchors on that member's span, names its
display path, labels every member's span (including the anchor) with "part
of this cycle", and notes the active compilation target. -/
theorem claim_C6 (sccs : Sccs) (c : Nat) (hc : c < sccs.numSccs) :
    (∀ n, (buildMembers sccs n).getD c [] =
      (List.range n).filter fun i => decide (sccs.sccOf i = c)) ∧
    (∀ n x, x ∈ (buildMembers sccs n).getD c [] →
      ((buildMembers sccs n).getD c []).getD 0 0 ≤ x) ∧
    (∀ (ctx : EarlyCtx) (d : Diag), earlySccDiag ctx sccs c = some d →
      (d.primarySpan = ctx.defSpan ((collectStatics ctx.hirItems).getD
          (((buildMembers sccs (collectStatics ctx.hirItems).length).getD c []).getD 0 0) 0) ∧
       d.message = "static initializer forms a cycle involving `" ++
          ctx.defPathStr ((collectStatics ctx.hirItems).getD
            (((buildMembers sccs (collectStatics ctx.hirItems).length).getD c []).getD 0 0) 0)
          ++ "`" ∧
       d.labels = ((buildMembers sccs (collectStatics ctx.hirItems).length).getD c []).map
          (fun x => (ctx.defSpan ((collectStatics ctx.hirItems).getD x 0),
            "part of this cycle")) ∧
       d.note = "cyclic static initializer references are not supported for target `" ++
          ctx.llvmTarget ++ "`")) ∧
    (∀ (lctx : LateCtx) (statics2 : List DefId) (members2 : List (List Nat)) (rest : List Nat),
      lateSccIsAcyclic statics2 lctx.usedMap (members2.getD c []) = some false →
      lateDiagLoop lctx statics2 members2 (c :: rest) =
        (lateDiagLoop lctx statics2 members2 rest).map
          (mkCycleDiag lctx.defSpanD lctx.defPathStrD lctx.llvmTarget statics2
            (members2.getD c []) :: ·) ∧
      mkCycleDiag lctx.defSpanD lctx.defPathStrD lctx.llvmTarget statics2
          (members2.getD c []) =
        { primarySpan := lctx.defSpanD (statics2.getD ((members2.getD c []).getD 0 0) default)
          message := "static initializer forms a cycle involving `" ++
            lctx.defPathStrD (statics2.getD ((members2.getD c []).getD 0 0) default) ++ "`"
          labels := (members2.getD c []).map
            (fun x => (lctx.defSpanD (statics2.getD x default), "part of this cycle"))
          note := "cyclic static initializer references are not supported for target `" ++
            lctx.llvmTarget ++ "`" }) := by
  refine ⟨fun n => buildMembers_getD sccs n c hc, ?_, ?_, ?_⟩
  · intro n x hx
    exact pairwise_head_min _ (members_pairwise sccs n c hc) x hx
  · intro ctx d hd
    simp only [earlySccDiag] at hd
    by_cases hA : sccIsAcyclic (fun n => (earlyGraphSucc ctx).getD n [])
        ((buildMembers sccs (collectStatics ctx.hirItems).length).getD c []) = true
    · rw [if_pos hA] at hd
      exact absurd hd (by simp)
    · rw [if_neg hA] at hd
      have hdm : d = mkCycleDiag ctx.defSpan ctx.defPathStr ctx.llvmTarget
          (collectStatics ctx.hirItems)
          ((buildMembers sccs (collectStatics ctx.hirItems).length).getD c []) :=
        (Option.some.inj hd).symm
      subst hdm
      exact ⟨rfl, rfl, rfl, rfl⟩
  · intro lctx statics2 members2 rest hcyc
    constructor
    · rw [lateDiagLoop, hcyc]
    · rfl

/-- Witness for C6: membership lists are ascending-filter lists, and the
diagnostic of the blob-cycle crate labels exactly its one member. -/
theorem claim_C6_witness :
    ((buildMembers oneScc 2).getD 0 [] =
      (List.range 2).filter fun i => decide (oneScc.sccOf i = 0)) ∧
    (mkCycleDiag blobCycleCtx.defSpan blobCycleCtx.defPathStr blobCycleCtx.llvmTarget
        (collectStatics blobCycleCtx.hirItems)
        ((buildMembers oneScc (collectStatics blobCycleCtx.hirItems).length).getD 0 [])).labels =
      ((buildMembers oneScc (collectStatics blobCycleCtx.hirItems).length).getD 0 []).map
        (fun x => (blobCycleCtx.defSpan ((collectStatics blobCycleCtx.hirItems).getD x 0),
          "part of this cycle")) := by
  refine ⟨(claim_C6 oneScc 0 (by decide)).1 2, ?_⟩
  exact ((claim_C6 oneScc 0 (by decide)).2.2.1 blobCycleCtx _ rfl).2.2.1

/-- Claim C8: a candidate whose constant evaluation fails gets an empty edge
row, and the whole check result is the same as if the static had evaluated
to an allocation with no outgoing references — the failure itself is never
surfaced by this subsystem. -/
theorem claim_C8 (ctx ctx2 : EarlyCtx) (S : LocalDefId) (k : Nat)
    (hk : getIndexOf (collectStatics ctx.hirItems) S = some k)
    (hfail : ctx.evalStaticInitializer S = none)
    (hitems : ctx2.hirItems = ctx.hirItems)
    (hallocs : ctx2.globalAllocs = ctx.globalAllocs)
    (hspan : ctx2.defSpan = ctx.defSpan)
    (hpath : ctx2.defPathStr = ctx.defPathStr)
    (htarget : ctx2.llvmTarget = ctx.llvmTarget)
    (hevalS : ctx2.evalStaticInitializer S = some { provenance := [] })
    (hevalOther : ∀ d, d ≠ S → ctx2.evalStaticInitializer d = ctx.evalStaticInitializer d) :
    (earlyGraphSucc ctx).getD k [] = [] ∧
    ∀ sccs, check_static_initializer_acyclic ctx sccs =
      check_static_initializer_acyclic ctx2 sccs := by
  have hcoll : ∀ (root : Allocation) (statics : List LocalDefId),
      collect_referenced_local_statics ctx2 root statics =
        collect_referenced_local_statics ctx root statics := by
    intro root statics
    unfold collect_referenced_local_statics fuelBound allocIdUniverse
    rw [hallocs]
  have hstat : collectStatics ctx2.hirItems = collectStatics ctx.hirItems := by rw [hitems]
  have hgraph : earlyGraphSucc ctx2 = earlyGraphSucc ctx := by
    unfold earlyGraphSucc
    rw [hstat]
    apply List.map_congr_left
    intro d hd
    by_cases hdS : d = S
    · subst hdS
      rw [hevalS, hfail]
      exact collect_empty_root ctx2 _
    · rw [hevalOther d hdS]
      cases ctx.evalStaticInitializer d with
      | none => rfl
      | some root => exact hcoll root _
  constructor
  · rw [earlyGraphRow ctx S k hk, hfail]
  · intro sccs
    have hdiag : earlySccDiag ctx2 sccs = earlySccDiag ctx sccs := by
      funext c
      simp only [earlySccDiag, hstat, hgraph, hspan, hpath, htarget]
    simp only [check_static_initializer_acyclic, hstat, hdiag]

/-- Witness for C8: the one-static crate whose evaluation fails is checked
exactly like the crate where the same static has an empty allocation. -/
theorem claim_C8_witness :
    (earlyGraphSucc evalFailCtx).getD 0 [] = [] ∧
    check_static_initializer_acyclic evalFailCtx oneScc =
      check_static_initializer_acyclic evalEmptyCtx oneScc := by
  have h := claim_C8 evalFailCtx evalEmptyCtx 9 0 (by decide) rfl rfl rfl rfl rfl rfl rfl
    (fun d hd => if_neg hd)
  exact ⟨h.1, h.2 oneScc⟩

/-- Claim C2: the orchestrated result is success exactly when no diagnostic
was emitted by either run; a failure carries precisely the first emitted
diagnostic's token; and each run emits one diagnostic for every cyclic
component of its graph before returning. -/
theorem claim_C2 (ectx : EarlyCtx) (esccs : Sccs) (opts : TargetOptions)
    (lctx : LateCtx) (lsccs : Sccs)
    (htot : ∀ i, i < (collectMonoStatics lctx.monoItems).length →
      (lctx.usedMap (MonoItem.staticItem
        ((collectMonoStatics lctx.monoItems).getD i default))).isSome) :
    ((orchestrate ectx esccs opts lctx lsccs).2 = Except.ok () ↔
      (orchestrate ectx esccs opts lctx lsccs).1 = []) ∧
    (∀ d rest, (orchestrate ectx esccs opts lctx lsccs).1 = d :: rest →
      (orchestrate ectx esccs opts lctx lsccs).2 = Except.error d) ∧
    ((orchestrate ectx esccs opts lctx lsccs).1 =
      (check_static_initializer_acyclic ectx esccs).1 ++
        (do_target_specific_checks opts lctx lsccs).getD []) ∧
    (∀ c, c < esccs.numSccs →
      sccIsAcyclic (fun n => (earlyGraphSucc ectx).getD n [])
        ((buildMembers esccs (collectStatics ectx.hirItems).length).getD c []) = false →
      mkCycleDiag ectx.defSpan ectx.defPathStr ectx.llvmTarget (collectStatics ectx.hirItems)
        ((buildMembers esccs (collectStatics ectx.hirItems).length).getD c []) ∈
        (check_static_initializer_acyclic ectx esccs).1) ∧
    (opts.static_initializer_must_be_acyclic = true →
      ∃ L, do_target_specific_checks opts lctx lsccs = some L ∧
        ∀ c, c < lsccs.numSccs →
          lateSccIsAcyclic (collectMonoStatics lctx.monoItems) lctx.usedMap
            ((buildMembers lsccs (collectMonoStatics lctx.monoItems).length).getD c []) =
            some false →
          mkCycleDiag lctx.defSpanD lctx.defPathStrD lctx.llvmTarget
            (collectMonoStatics lctx.monoItems)
            ((buildMembers lsccs (collectMonoStatics lctx.monoItems).length).getD c []) ∈ L) := by
  have horch : (orchestrate ectx esccs opts lctx lsccs).2 =
      firstGuar (orchestrate ectx esccs opts lctx lsccs).1 := rfl
  refine ⟨?_, ?_, rfl, ?_, ?_⟩
  · rw [horch]
    exact firstGuar_ok_iff _
  · intro d rest h
    rw [horch, h]
    rfl
  · intro c hc hcyc
    by_cases hse : (collectStatics ectx.hirItems).isEmpty = true
    · have hnil : collectStatics ectx.hirItems = [] := List.isEmpty_iff.mp hse
      rw [buildMembers_getD esccs (collectStatics ectx.hirItems).length c hc, hnil] at hcyc
      simp [sccIsAcyclic] at hcyc
    · have hne : (collectStatics ectx.hirItems).isEmpty = false := by
        cases hbe : (collectStatics ectx.hirItems).isEmpty
        · rfl
        · exact absurd hbe hse
      rw [earlyDiags_characterization ectx esccs hne]
      refine List.mem_map.mpr ⟨c, List.mem_filter.mpr ⟨List.mem_range.mpr hc, ?_⟩, rfl⟩
      rw [hcyc]
      rfl
  · intro hflag
    simp only [do_target_specific_checks, hflag, if_true]
    simp only [check_static_initializers_are_acyclic]
    by_cases hse : (collectMonoStatics lctx.monoItems).isEmpty = true
    · rw [if_pos hse]
      refine ⟨[], rfl, ?_⟩
      intro c hc hcyc
      have hnil : (collectMonoStatics lctx.monoItems) = [] := List.isEmpty_iff.mp hse
      rw [buildMembers_getD lsccs (collectMonoStatics lctx.monoItems).length c hc, hnil] at hcyc
      simp [lateSccIsAcyclic] at hcyc
    · rw [if_neg hse]
      rw [lateDiagLoop_characterization lctx (collectMonoStatics lctx.monoItems)
        (buildMembers lsccs (collectMonoStatics lctx.monoItems).length)
        (List.range lsccs.numSccs)
        (lateLoop_total lctx lsccs (collectMonoStatics lctx.monoItems) htot)]
      refine ⟨_, rfl, ?_⟩
      intro c hc hcyc
      refine List.mem_map.mpr ⟨c, List.mem_filter.mpr ⟨List.mem_range.mpr hc, ?_⟩, rfl⟩
      rw [hcyc]
      rfl

/-- Witness for C2: the orchestrated run over the blob-cycle crate and the
mutual-cycle universe fails exactly because its diagnostic list is
nonempty. -/
theorem claim_C2_witness :
    (orchestrate blobCycleCtx oneScc { static_initializer_must_be_acyclic := true }
        mutualLateCtx oneScc).2 = Except.ok () ↔
      (orchestrate blobCycleCtx oneScc { static_initializer_must_be_acyclic := true }
        mutualLateCtx oneScc).1 = [] :=
  (claim_C2 blobCycleCtx oneScc { static_initializer_must_be_acyclic := true }
    mutualLateCtx oneScc (by decide)).1
